import Mathlib

/-!
Verification of the Devonika build-loop core against its specification.

The development below is a shallow embedding of the repository's control
loop: the dependency-aware task scheduler (`devonika/manager/project_manager.py`),
the iterative build–test–debug loop (`devonika/core/engine.py`), and the
repair-fix acceptance policy (`devonika/debugger/auto_debugger.py`).

Python dictionaries are embedded as association lists with dict semantics
(assignment keeps the position of an existing key, appends a new key);
`dict.get(k, default)` becomes a lookup with an explicit default.  Machine
floats that only ever hold JSON-level decimal confidences are embedded as
rationals.  Fallible collaborator calls are embedded as `Except`-valued
oracles indexed by the loop iteration.
-/

namespace Devonika

/-- A planned task, as produced by the planner and consumed by the
scheduler (`project_manager.py`).  Fields mirror the task dictionaries:
`component_id` joins the task to the completion tracker, `priority` is one
of "high"/"medium"/"low" (any other string falls back to the "medium"
weight, as `priority_map.get(..., 2)` does), `estimated_complexity` is the
planner's 1..10 integer, and `prerequisites` is the ordered list of
prerequisite identifiers looked up in the completion tracker. -/
structure Task where
  component_id : String
  description : String
  priority : String
  estimated_complexity : Int
  prerequisites : List String
deriving Repr, DecidableEq

/-- A project plan as read by the engine: `components` is the list of
component ids (`comp["id"]` for each entry of `plan["components"]`) and
`tasks` is `plan["tasks"]` in planner order. -/
structure Plan where
  components : List String
  tasks : List Task
deriving Repr, DecidableEq

/-- Python dict assignment `d[k] = v` on an association list: an existing
binding is overwritten in place (keeping its position), a fresh key is
appended at the end.  Dicts of the model are built by such assignments,
so each key occurs at most once, matching Python dict semantics. -/
def dictSet {β : Type} : List (String × β) → String → β → List (String × β)
  | [], k, v => [(k, v)]
  | (k', v') :: rest, k, v =>
      if k' == k then (k', v) :: rest else (k', v') :: dictSet rest k v

/-- Python `d.update(new)`: every binding of `new` is assigned into `d` in
order (last writer wins on duplicate keys). -/
def dictUpdate {β : Type} (d new : List (String × β)) : List (String × β) :=
  new.foldl (fun acc kv => dictSet acc kv.1 kv.2) d

/-- Embeds `completion_status.get(c, False)`: tracker lookup defaulting
to `false` for a component id that is absent from the tracker. -/
def trackerGet (cs : List (String × Bool)) (c : String) : Bool :=
  ((cs.lookup c).getD false)

/-- The incomplete-task filter of `get_next_task`: tasks whose
`component_id` maps to `false` (or is absent) in the completion tracker,
in the plan's original order. -/
def incompleteTasks (tasks : List Task) (cs : List (String × Bool)) :
    List Task :=
  tasks.filter (fun t => !(trackerGet cs t.component_id))

/-- The prerequisite check of `get_next_task`:
`all(completion_status.get(p, False) for p in task.get("prerequisites", []))`.
A prerequisite id absent from the tracker counts as unmet. -/
def prereqsMet (cs : List (String × Bool)) (t : Task) : Bool :=
  t.prerequisites.all (fun p => trackerGet cs p)

/-- Embeds `priority_map.get(task.get("priority", "medium"), 2)`: the
weight of a task's priority string, defaulting to the "medium" weight
`2` for any unrecognised value. -/
def priorityScore (t : Task) : Int :=
  if t.priority = "high" then 3
  else if t.priority = "medium" then 2
  else if t.priority = "low" then 1
  else 2

/-- The fallback score of `_select_highest_priority`:
`priority_score * 10 - estimated_complexity`. -/
def taskScore (t : Task) : Int :=
  priorityScore t * 10 - t.estimated_complexity

/-- One comparison step of the stable descending sort-and-take-first:
keep the current best candidate, replacing it only when the challenger's
score is strictly greater (a tie keeps the earlier task, as Python's
stable `sort(reverse=True)` does). -/
def betterTask (best u : Task) : Task :=
  if taskScore best < taskScore u then u else best

/-- The fallback `_select_highest_priority`: Python sorts the scored
tasks descending with a stable sort and returns the first element, i.e.
the earliest-appearing task of maximal score; the left fold of
`betterTask` computes exactly that task.  The `[]` branch mirrors the
(unreachable from `get_next_task`) empty input, on which the Python
indexes `tasks[0]` of an empty list. -/
def select_highest_priority (tasks : List Task) : Option Task :=
  match tasks with
  | [] => none
  | t :: ts => some (ts.foldl betterTask t)

/-- Embeds `ProjectManager.get_next_task`: filter to the incomplete
tasks, return `none` when there are none, otherwise the first incomplete
task with all prerequisites met, otherwise the fallback priority
selection over the whole incomplete set. -/
def get_next_task (plan : Plan) (cs : List (String × Bool)) : Option Task :=
  if (incompleteTasks plan.tasks cs).isEmpty then none
  else
    match (incompleteTasks plan.tasks cs).find? (prereqsMet cs) with
    | some t => some t
    | none => select_highest_priority (incompleteTasks plan.tasks cs)

/-- The search `find?` returns the head of the suffix when everything
before it fails the predicate and it satisfies it. -/
theorem find?_first_of_split {p : Task → Bool} :
    ∀ (l1 : List Task) (t : Task) (l2 : List Task),
      p t = true → (∀ u ∈ l1, p u = false) →
      List.find? p (l1 ++ t :: l2) = some t := by
  intro l1
  induction l1 with
  | nil =>
      intro t l2 ht _
      rw [List.nil_append]
      exact List.find?_cons_of_pos _ ht
  | cons a l ih =>
      intro t l2 ht hall
      have ha : p a = false := hall a (by simp)
      rw [List.cons_append, List.find?_cons_of_neg _ (by simp [ha])]
      exact ih t l2 ht (fun u hu => hall u (by simp [hu]))

/-- The fold of `betterTask` selects the earliest-appearing task of
maximal `taskScore`: the input splits around the result with every
earlier task scoring strictly less and every later task scoring at
most as much. -/
theorem foldl_betterTask_decomp :
    ∀ (ts : List Task) (t : Task),
      ∃ l1 l2,
        t :: ts = l1 ++ (ts.foldl betterTask t) :: l2 ∧
        (∀ u ∈ l1, taskScore u < taskScore (ts.foldl betterTask t)) ∧
        (∀ u ∈ l2, taskScore u ≤ taskScore (ts.foldl betterTask t)) := by
  intro ts
  induction ts with
  | nil =>
      intro t
      exact ⟨[], [], rfl, by simp, by simp⟩
  | cons a rest ih =>
      intro t
      by_cases h : taskScore t < taskScore a
      · have e : (a :: rest).foldl betterTask t = rest.foldl betterTask a := by
          simp [List.foldl_cons, betterTask, h]
        obtain ⟨l1, l2, hdec, hlt, hle⟩ := ih a
        rw [e]
        refine ⟨t :: l1, l2, by simpa using congrArg (t :: ·) hdec, ?_, hle⟩
        have hab : taskScore a ≤ taskScore (rest.foldl betterTask a) := by
          cases l1 with
          | nil =>
              have : a = rest.foldl betterTask a := by
                simpa using congrArg (fun l => l.head?) hdec
              rw [← this]
          | cons c l1' =>
              have hac : a = c := by simpa using congrArg (fun l => l.head?) hdec
              exact le_of_lt (hac ▸ hlt c (by simp))
        intro u hu
        rcases List.mem_cons.mp hu with rfl | hu
        · exact lt_of_lt_of_le h hab
        · exact hlt u hu
      · have e : (a :: rest).foldl betterTask t = rest.foldl betterTask t := by
          simp [List.foldl_cons, betterTask, h]
        obtain ⟨l1, l2, hdec, hlt, hle⟩ := ih t
        rw [e]
        have hat : taskScore a ≤ taskScore t := le_of_not_lt h
        cases l1 with
        | nil =>
            have hb : t = rest.foldl betterTask t := by
              simpa using congrArg (fun l => l.head?) hdec
            have hrest : rest = l2 := by
              have := hdec
              rw [List.nil_append, ← hb] at this
              exact (List.cons.injEq t rest t l2).mp this |>.2
            refine ⟨[], a :: l2, ?_, by simp, ?_⟩
            · rw [List.nil_append, ← hb, ← hrest]
            · intro u hu
              rcases List.mem_cons.mp hu with rfl | hu
              · exact le_trans hat (le_of_eq (congrArg taskScore hb))
              · exact hle u hu
        | cons c l1' =>
            have hct : t = c := by simpa using congrArg (fun l => l.head?) hdec
            have hrest : rest = l1' ++ (rest.foldl betterTask t) :: l2 := by
              have := hdec
              rw [List.cons_append, ← hct] at this
              exact (List.cons.injEq t rest t _).mp this |>.2
            refine ⟨t :: a :: l1', l2, ?_, ?_, hle⟩
            · rw [List.cons_append, List.cons_append, ← hrest]
            · intro u hu
              have htb : taskScore t < taskScore (rest.foldl betterTask t) :=
                hct ▸ hlt c (by simp)
              rcases List.mem_cons.mp hu with rfl | hu
              · exact htb
              · rcases List.mem_cons.mp hu with rfl | hu
                · exact lt_of_le_of_lt hat htb
                · exact hlt u (by simp [hct, hu])

/-- C1: `get_next_task` forms the incomplete-task set in plan order
(component id mapped to `false` or absent in the tracker); it returns
`none` iff that set is empty; otherwise the first incomplete task whose
prerequisites are all met; otherwise the earliest incomplete task of
maximal `priority_weight * 10 - estimated_complexity` score; and it is a
pure deterministic function of the plan and the tracker. -/
theorem get_next_task_spec (plan : Plan) (cs : List (String × Bool)) :
    (∀ t, t ∈ incompleteTasks plan.tasks cs ↔
        t ∈ plan.tasks ∧ trackerGet cs t.component_id = false) ∧
    (get_next_task plan cs = none ↔ incompleteTasks plan.tasks cs = []) ∧
    (∀ l1 t l2, incompleteTasks plan.tasks cs = l1 ++ t :: l2 →
        prereqsMet cs t = true → (∀ u ∈ l1, prereqsMet cs u = false) →
        get_next_task plan cs = some t) ∧
    ((incompleteTasks plan.tasks cs ≠ [] ∧
        ∀ u ∈ incompleteTasks plan.tasks cs, prereqsMet cs u = false) →
      ∃ r l1 l2, get_next_task plan cs = some r ∧
        incompleteTasks plan.tasks cs = l1 ++ r :: l2 ∧
        (∀ u ∈ l1, taskScore u < taskScore r) ∧
        (∀ u ∈ l2, taskScore u ≤ taskScore r)) ∧
    (∀ plan2 cs2, plan = plan2 → cs = cs2 →
        get_next_task plan cs = get_next_task plan2 cs2) := by
  refine ⟨?_, ?_, ?_, ?_, ?_⟩
  · intro t
    constructor
    · intro ht
      have := List.mem_filter.mp ht
      exact ⟨this.1, by simpa [trackerGet] using this.2⟩
    · intro ⟨h1, h2⟩
      exact List.mem_filter.mpr ⟨h1, by simp [h2]⟩
  · constructor
    · intro h
      by_contra hne
      cases hinc : incompleteTasks plan.tasks cs with
      | nil => exact hne hinc
      | cons a l =>
          unfold get_next_task at h
          rw [hinc] at h
          simp only [List.isEmpty_cons, Bool.false_eq_true, if_false] at h
          cases hf : List.find? (prereqsMet cs) (a :: l) with
          | some t => rw [hf] at h; exact Option.noConfusion h
          | none =>
              rw [hf] at h
              exact Option.noConfusion (h : select_highest_priority (a :: l) = none)
    · intro h
      unfold get_next_task
      rw [h]
      rfl
  · intro l1 t l2 hdec hmet hunmet
    unfold get_next_task
    rw [hdec]
    have hne : (l1 ++ t :: l2).isEmpty = false := by cases l1 <;> simp
    rw [hne]
    simp only [Bool.false_eq_true, if_false]
    rw [find?_first_of_split l1 t l2 hmet hunmet]
  · intro ⟨hne, hall⟩
    cases hinc : incompleteTasks plan.tasks cs with
    | nil => exact absurd hinc hne
    | cons a l =>
        have hfind : List.find? (prereqsMet cs) (a :: l) = none := by
          rw [← hinc]
          exact List.find?_eq_none.mpr (fun u hu => by simp [hall u hu])
        obtain ⟨l1, l2, hdec, hlt, hle⟩ := foldl_betterTask_decomp l a
        refine ⟨l.foldl betterTask a, l1, l2, ?_, ?_, hlt, hle⟩
        · unfold get_next_task
          rw [hinc]
          simp only [List.isEmpty_cons, Bool.false_eq_true, if_false]
          rw [hfind]
          rfl
        · exact hdec
  · intro plan2 cs2 h1 h2
    rw [h1, h2]

/-- Concrete scheduler input for the fallback path: three incomplete
tasks, every prerequisite dangling, the earliest of the two
maximal-score tasks wins. -/
def planFallback : Plan :=
  { components := ["cA", "cB", "cC"],
    tasks :=
      [ { component_id := "cA", description := "a", priority := "low",
          estimated_complexity := 1, prerequisites := ["ghost"] },
        { component_id := "cB", description := "b", priority := "high",
          estimated_complexity := 8, prerequisites := ["ghost"] },
        { component_id := "cC", description := "c", priority := "high",
          estimated_complexity := 8, prerequisites := ["ghost"] } ] }

def trackerFallback : List (String × Bool) :=
  [("cA", false), ("cB", false), ("cC", false)]

/-- Witness for C1: the fallback branch fires on `planFallback` and
returns a maximal-score task splitting the incomplete set as the theorem
states. -/
theorem get_next_task_spec_witness :
    (incompleteTasks planFallback.tasks trackerFallback ≠ [] ∧
      ∀ u ∈ incompleteTasks planFallback.tasks trackerFallback,
        prereqsMet trackerFallback u = false) ∧
    (∃ r l1 l2, get_next_task planFallback trackerFallback = some r ∧
      incompleteTasks planFallback.tasks trackerFallback = l1 ++ r :: l2 ∧
      (∀ u ∈ l1, taskScore u < taskScore r) ∧
      (∀ u ∈ l2, taskScore u ≤ taskScore r)) :=
  ⟨⟨by decide, by decide⟩,
    (get_next_task_spec planFallback trackerFallback).2.2.2.1 ⟨by decide, by decide⟩⟩

/-- C8: the scheduler degrades gracefully instead of raising: a
prerequisite id absent from the tracker is treated as permanently unmet
(`false`), a task whose component id is absent from the tracker counts
as incomplete, and whenever the incomplete set is non-empty
`get_next_task` still returns a task (it is a total function with no
error outcome, mirroring the exception-free `dict.get` accesses of the
Python). -/
theorem get_next_task_graceful (plan : Plan) (cs : List (String × Bool)) :
    (∀ p, cs.lookup p = none → trackerGet cs p = false) ∧
    (∀ t : Task, ∀ p ∈ t.prerequisites, cs.lookup p = none →
        prereqsMet cs t = false) ∧
    (∀ t ∈ plan.tasks, cs.lookup t.component_id = none →
        t ∈ incompleteTasks plan.tasks cs) ∧
    (incompleteTasks plan.tasks cs ≠ [] →
        ∃ t, get_next_task plan cs = some t) := by
  refine ⟨?_, ?_, ?_, ?_⟩
  · intro p hp
    simp [trackerGet, hp]
  · intro t p hp hnone
    have : trackerGet cs p = false := by simp [trackerGet, hnone]
    unfold prereqsMet
    rw [List.all_eq_false]
    exact ⟨p, hp, by simp [this]⟩
  · intro t ht hnone
    exact List.mem_filter.mpr ⟨ht, by simp [trackerGet, hnone]⟩
  · intro hne
    cases hinc : incompleteTasks plan.tasks cs with
    | nil => exact absurd hinc hne
    | cons a l =>
        unfold get_next_task
        rw [hinc]
        simp only [List.isEmpty_cons, Bool.false_eq_true, if_false]
        cases hf : List.find? (prereqsMet cs) (a :: l) with
        | some t => exact ⟨t, rfl⟩
        | none => exact ⟨l.foldl betterTask a, rfl⟩

/-- Witness for C8: a plan whose only task carries a dangling
prerequisite and a component id missing from the tracker still gets
scheduled. -/
def planDangling : Plan :=
  { components := ["cX"],
    tasks :=
      [ { component_id := "cOrphan", description := "d", priority := "medium",
          estimated_complexity := 5, prerequisites := ["noSuchTask"] } ] }

def trackerDangling : List (String × Bool) := [("cX", false)]

theorem get_next_task_graceful_witness :
    trackerGet trackerDangling "noSuchTask" = false ∧
    prereqsMet trackerDangling
      { component_id := "cOrphan", description := "d", priority := "medium",
        estimated_complexity := 5, prerequisites := ["noSuchTask"] } = false ∧
    (∃ t, get_next_task planDangling trackerDangling = some t) :=
  ⟨(get_next_task_graceful planDangling trackerDangling).1 "noSuchTask" (by decide),
    (get_next_task_graceful planDangling trackerDangling).2.1 _ "noSuchTask"
      (by decide) (by decide),
    (get_next_task_graceful planDangling trackerDangling).2.2.2 (by decide)⟩

/-! The build loop of `DevonikaEngine._iterative_development_loop`
(`engine.py`).  Collaborator dispatches (`execute_task`, `run_tests`,
`debug_and_fix`) are external calls that may raise; they are embedded as
`Except`-valued oracles indexed by the iteration counter (which, for a
fixed plan, determines the call site of a deterministic run) together
with the data the engine actually passes them. -/

/-- Result dictionary of `TaskExecutor.execute_task`: the generated
files and the `completed` flag. -/
structure ExecResult where
  files : List (String × String)
  completed : Bool
deriving Repr, DecidableEq

/-- Result dictionary of `TestRunner.run_tests`. -/
structure TestResult where
  passed : Bool
  output : String
deriving Repr, DecidableEq

/-- Result dictionary of `AutoDebugger.debug_and_fix` as consumed by the
engine: the `fixed` flag and the files of the accepted fixes. -/
structure DebugOutcome where
  fixed : Bool
  files : List (String × String)
deriving Repr, DecidableEq

/-- The three collaborator dispatches of one loop iteration, as oracles:
an `Except.error` models an unhandled Python exception escaping the
call. -/
structure Collaborators where
  execute : Nat → Task → List (String × String) → Except String ExecResult
  run_tests : Nat → Task → Except String TestResult
  debug_and_fix : Nat → TestResult → List (String × String) →
    Except String DebugOutcome

/-- The engine configuration keys read by the loop. -/
structure EngineConfig where
  max_iterations : Nat
  auto_test : Bool
  auto_fix_errors : Bool
deriving Repr, DecidableEq

/-- One progress record as passed to `save_progress` by the loop:
iteration number, completion-tracker snapshot and codebase snapshot
(the timestamp added by `save_progress` itself is not part of the loop's
data). -/
structure ProgressRecord where
  iteration : Nat
  completion_status : List (String × Bool)
  codebase : List (String × String)
deriving Repr, DecidableEq

/-- The mutable state of one loop run; `saves` is the trace of records
handed to the Progress Store, in order. -/
structure LoopState where
  iteration : Nat
  completion_status : List (String × Bool)
  codebase : List (String × String)
  saves : List ProgressRecord
deriving Repr, DecidableEq

/-- Why the while loop stopped: the all-complete break, the no-task
break, or exhaustion of the `iteration < max_iterations` condition. -/
inductive LoopExit where
  | allComplete
  | noWork
  | maxIterations
deriving Repr, DecidableEq

/-- How a run ended: a normal loop exit, or an unhandled collaborator
exception propagating out of the loop. -/
inductive RunEnd where
  | finished (reason : LoopExit)
  | raised (msg : String)
deriving Repr, DecidableEq

/-- A finished run: final state plus how it ended. -/
structure RunOutcome where
  state : LoopState
  outcome : RunEnd
deriving Repr, DecidableEq

/-- Outcome of one pass through the while-loop body. -/
inductive StepResult where
  | broke (reason : LoopExit) (st : LoopState)
  | next (st : LoopState)
  | raised (msg : String) (st : LoopState)
deriving Repr, DecidableEq

/-- The auto-test / auto-fix phase of one iteration: when `auto_test` is
set, dispatch the test collaborator; if it reports failure and
`auto_fix_errors` is set, dispatch the debugger and merge its files into
the codebase when it reports `fixed`. -/
def testPhase (cfg : EngineConfig) (C : Collaborators) (it : Nat)
    (task : Task) (st : LoopState) : Except String LoopState :=
  if cfg.auto_test then
    match C.run_tests it task with
    | .error e => .error e
    | .ok tr =>
        if !tr.passed && cfg.auto_fix_errors then
          match C.debug_and_fix it tr st.codebase with
          | .error e => .error e
          | .ok dr =>
              if dr.fixed then
                .ok { st with codebase := dictUpdate st.codebase dr.files }
              else .ok st
        else .ok st
  else .ok st

/-- One pass through the body of the while loop of
`_iterative_development_loop`: the iteration counter is incremented,
then in order: all-complete check, scheduler call, execution dispatch,
codebase merge, test/debug phase, completion-tracker update when the
task reports `completed`, progress save.  A collaborator exception
aborts the pass at the failing dispatch, before the save. -/
def loopStep (cfg : EngineConfig) (C : Collaborators) (plan : Plan)
    (st : LoopState) : StepResult :=
  let it := st.iteration + 1
  let st1 : LoopState := { st with iteration := it }
  if st1.completion_status.all (fun p => p.2) then
    .broke .allComplete st1
  else
    match get_next_task plan st1.completion_status with
    | none => .broke .noWork st1
    | some task =>
        match C.execute it task st1.codebase with
        | .error e => .raised e st1
        | .ok res =>
            let st2 : LoopState :=
              { st1 with codebase := dictUpdate st1.codebase res.files }
            match testPhase cfg C it task st2 with
            | .error e => .raised e st2
            | .ok st3 =>
                let cs2 :=
                  if res.completed then
                    dictSet st3.completion_status task.component_id true
                  else st3.completion_status
                .next { st3 with
                         completion_status := cs2,
                         saves := st3.saves ++
                           [{ iteration := it,
                              completion_status := cs2,
                              codebase := st3.codebase }] }

/-- The while loop, driven by the remaining iteration budget as fuel:
at every reachable state `fuel = max_iterations - iteration`, so
`fuel = 0` exactly when the loop condition `iteration < max_iterations`
fails. -/
def runLoopAux (cfg : EngineConfig) (C : Collaborators) (plan : Plan) :
    Nat → LoopState → RunOutcome
  | 0, st => { state := st, outcome := .finished .maxIterations }
  | fuel + 1, st =>
      match loopStep cfg C plan st with
      | .broke r st2 => { state := st2, outcome := .finished r }
      | .raised e st2 => { state := st2, outcome := .raised e }
      | .next st2 => runLoopAux cfg C plan fuel st2

/-- Embeds `_iterative_development_loop`: the completion tracker is
initialised to `false` for every component id of the plan (a dict
comprehension, hence built by repeated assignment), and the while loop
runs from iteration 0 over the initial codebase. -/
def runLoop (cfg : EngineConfig) (C : Collaborators) (plan : Plan)
    (codebase0 : List (String × String)) : RunOutcome :=
  runLoopAux cfg C plan cfg.max_iterations
    { iteration := 0,
      completion_status :=
        plan.components.foldl (fun acc c => dictSet acc c false) [],
      codebase := codebase0,
      saves := [] }

/-- The loop's return dictionary (`codebase`, `iterations`,
`completion_status`), as handed back to `build_project`. -/
structure LoopReturn where
  codebase : List (String × String)
  iterations : Nat
  completion_status : List (String × Bool)
deriving Repr, DecidableEq

/-- What the caller of `build_project` receives. -/
structure BuildOutcome where
  status : String
  error : Option String
  project : Option LoopReturn
deriving Repr, DecidableEq

/-- The `try/except` of `build_project`, restricted to the phase the
claims concern (the development loop; the surrounding phases are
external collaborators): an exception escaping the loop is caught and
turned into a structured `status = "error"` result with no project
payload, while a normal exit returns the loop's result dictionary. -/
def build_project_loop (cfg : EngineConfig) (C : Collaborators)
    (plan : Plan) (codebase0 : List (String × String)) : BuildOutcome :=
  match runLoop cfg C plan codebase0 with
  | { state := _, outcome := .raised e } =>
      { status := "error", error := some e, project := none }
  | { state := st, outcome := .finished _ } =>
      { status := "success", error := none,
        project := some { codebase := st.codebase,
                          iterations := st.iteration,
                          completion_status := st.completion_status } }

/-- Reading a dict after an assignment: the assigned key reads the new
value, every other key is untouched. -/
theorem trackerGet_dictSet (cs : List (String × Bool)) (k c : String)
    (v : Bool) :
    trackerGet (dictSet cs k v) c = if c = k then v else trackerGet cs c := by
  induction cs with
  | nil =>
      simp only [dictSet, trackerGet, List.lookup]
      by_cases hck : c = k
      · simp [hck]
      · simp [hck, show (c == k) = false from by simpa using hck]
  | cons p rest ih =>
      obtain ⟨k2, v2⟩ := p
      by_cases hk : k2 = k
      · subst hk
        simp only [dictSet, beq_self_eq_true, if_true, trackerGet,
          List.lookup]
        by_cases hck : c = k2
        · simp [hck]
        · simp [hck, show (c == k2) = false from by simpa using hck]
      · have hkb : (k2 == k) = false := by simpa using hk
        simp only [dictSet, hkb, Bool.false_eq_true, if_false, trackerGet,
          List.lookup]
        by_cases hck : c = k2
        · subst hck
          simp [hk]
        · have hcb : (c == k2) = false := by simpa using hck
          simpa [trackerGet, hcb] using ih

/-- Pointwise ordering on trackers: every component already `true` on the
left is `true` on the right. -/
def trackerLE (a b : List (String × Bool)) : Prop :=
  ∀ c, trackerGet a c = true → trackerGet b c = true

theorem trackerLE_refl (a : List (String × Bool)) : trackerLE a a :=
  fun _ h => h

theorem trackerLE_trans {a b c : List (String × Bool)}
    (h1 : trackerLE a b) (h2 : trackerLE b c) : trackerLE a c :=
  fun x hx => h2 x (h1 x hx)

/-- Marking a component complete never unmarks another: assignment of
`true` is monotone. -/
theorem trackerLE_dictSet_true (cs : List (String × Bool)) (k : String) :
    trackerLE cs (dictSet cs k true) := by
  intro c hc
  rw [trackerGet_dictSet]
  by_cases h : c = k <;> simp [h, hc]

/-- The test/debug phase touches only the codebase: iteration counter,
completion tracker and persisted trace pass through unchanged. -/
theorem testPhase_ok (cfg : EngineConfig) (C : Collaborators) (it : Nat)
    (task : Task) (st st2 : LoopState)
    (h : testPhase cfg C it task st = .ok st2) :
    st2.iteration = st.iteration ∧
    st2.completion_status = st.completion_status ∧
    st2.saves = st.saves := by
  unfold testPhase at h
  split at h
  · split at h
    · exact absurd h (by simp)
    · split at h
      · split at h
        · exact absurd h (by simp)
        · split at h
          · cases h
            exact ⟨rfl, rfl, rfl⟩
          · cases h
            exact ⟨rfl, rfl, rfl⟩
      · cases h
        exact ⟨rfl, rfl, rfl⟩
  · cases h
    exact ⟨rfl, rfl, rfl⟩

/-- A pass that breaks leaves tracker, codebase and trace untouched and
only advances the counter. -/
theorem loopStep_broke (cfg : EngineConfig) (C : Collaborators)
    (plan : Plan) (st : LoopState) (r : LoopExit) (st2 : LoopState)
    (h : loopStep cfg C plan st = .broke r st2) :
    st2.iteration = st.iteration + 1 ∧
    st2.completion_status = st.completion_status ∧
    st2.codebase = st.codebase ∧
    st2.saves = st.saves := by
  simp only [loopStep] at h
  split at h
  · cases h
    exact ⟨rfl, rfl, rfl, rfl⟩
  · split at h
    · cases h
      exact ⟨rfl, rfl, rfl, rfl⟩
    · split at h
      · exact absurd h (by simp)
      · split at h
        · exact absurd h (by simp)
        · exact absurd h (by simp)

/-- A pass that raises leaves tracker and trace untouched: the failing
dispatch happens before the completion update and the save. -/
theorem loopStep_raised (cfg : EngineConfig) (C : Collaborators)
    (plan : Plan) (st : LoopState) (e : String) (st2 : LoopState)
    (h : loopStep cfg C plan st = .raised e st2) :
    st2.iteration = st.iteration + 1 ∧
    st2.completion_status = st.completion_status ∧
    st2.saves = st.saves := by
  simp only [loopStep] at h
  split at h
  · exact absurd h (by simp)
  · split at h
    · exact absurd h (by simp)
    · split at h
      · cases h
        exact ⟨rfl, rfl, rfl⟩
      · split at h
        · cases h
          exact ⟨rfl, rfl, rfl⟩
        · exact absurd h (by simp)

/-- A pass that continues advances the counter by one, grows the tracker
monotonically (the only mutation is a `true` assignment) and appends
exactly one progress record, snapshotting the new tracker and codebase
at the incremented iteration. -/
theorem loopStep_next (cfg : EngineConfig) (C : Collaborators)
    (plan : Plan) (st : LoopState) (st2 : LoopState)
    (h : loopStep cfg C plan st = .next st2) :
    st2.iteration = st.iteration + 1 ∧
    trackerLE st.completion_status st2.completion_status ∧
    st2.saves = st.saves ++
      [{ iteration := st.iteration + 1,
         completion_status := st2.completion_status,
         codebase := st2.codebase }] := by
  simp only [loopStep] at h
  split at h
  · exact absurd h (by simp)
  · split at h
    · exact absurd h (by simp)
    · rename_i task _
      split at h
      · exact absurd h (by simp)
      · rename_i res _
        split at h
        · exact absurd h (by simp)
        · rename_i st3 htest
          obtain ⟨hit, hcs, hsaves⟩ :=
            testPhase_ok cfg C (st.iteration + 1) task _ st3 htest
          cases h
          refine ⟨hit, ?_, ?_⟩
          · show trackerLE st.completion_status
              (if res.completed = true then
                dictSet st3.completion_status task.component_id true
              else st3.completion_status)
            rw [hcs]
            split
            · exact trackerLE_dictSet_true st.completion_status task.component_id
            · exact trackerLE_refl st.completion_status
          · show st3.saves ++ _ = st.saves ++ _
            rw [hsaves, hcs]

/-- The final iteration counter is bounded by the starting counter plus
the remaining fuel. -/
theorem runLoopAux_iteration_le (cfg : EngineConfig) (C : Collaborators)
    (plan : Plan) :
    ∀ (fuel : Nat) (st : LoopState),
      (runLoopAux cfg C plan fuel st).state.iteration ≤ st.iteration + fuel := by
  intro fuel
  induction fuel with
  | zero =>
      intro st
      simp [runLoopAux]
  | succ n ih =>
      intro st
      unfold runLoopAux
      cases hstep : loopStep cfg C plan st with
      | broke r st2 =>
          have h1 := (loopStep_broke cfg C plan st r st2 hstep).1
          rw [h1]
          omega
      | raised e st2 =>
          have h1 := (loopStep_raised cfg C plan st e st2 hstep).1
          rw [h1]
          omega
      | next st2 =>
          have h1 := (loopStep_next cfg C plan st st2 hstep).1
          have h2 := ih st2
          calc (runLoopAux cfg C plan n st2).state.iteration
              ≤ st2.iteration + n := h2
            _ = st.iteration + 1 + n := by rw [h1]
            _ ≤ st.iteration + (n + 1) := by omega

/-- C4: the Build Loop halts for every configuration, plan, initial
codebase and collaborator behaviour, and the number of executed loop
iterations (the final iteration counter) never exceeds the configured
`max_iterations`. -/
theorem loop_iterations_bounded (cfg : EngineConfig) (C : Collaborators)
    (plan : Plan) (cb0 : List (String × String)) :
    (runLoop cfg C plan cb0).state.iteration ≤ cfg.max_iterations := by
  have h := runLoopAux_iteration_le cfg C plan cfg.max_iterations
    { iteration := 0,
      completion_status :=
        plan.components.foldl (fun acc c => dictSet acc c false) [],
      codebase := cb0,
      saves := [] }
  simpa [runLoop] using h

/-- Run invariant for monotonicity: the persisted tracker snapshots form
a pointwise-increasing chain, all below the live tracker. -/
def loopInv (st : LoopState) : Prop :=
  List.Pairwise
    (fun r1 r2 => trackerLE r1.completion_status r2.completion_status)
    st.saves ∧
  ∀ r ∈ st.saves, trackerLE r.completion_status st.completion_status

/-- Each pass preserves the monotonicity invariant. -/
theorem loopStep_preserves_inv (cfg : EngineConfig) (C : Collaborators)
    (plan : Plan) (st : LoopState) (h : loopInv st) :
    ∀ st2, (∃ r, loopStep cfg C plan st = .broke r st2) ∨
        (∃ e, loopStep cfg C plan st = .raised e st2) ∨
        loopStep cfg C plan st = .next st2 →
      loopInv st2 := by
  intro st2 hcase
  rcases hcase with ⟨r, hb⟩ | ⟨e, hr⟩ | hn
  · obtain ⟨_, hcs, _, hsaves⟩ := loopStep_broke cfg C plan st r st2 hb
    exact ⟨hsaves ▸ h.1, fun q hq => hcs ▸ h.2 q (hsaves ▸ hq)⟩
  · obtain ⟨_, hcs, hsaves⟩ := loopStep_raised cfg C plan st e st2 hr
    exact ⟨hsaves ▸ h.1, fun q hq => hcs ▸ h.2 q (hsaves ▸ hq)⟩
  · obtain ⟨_, hle, hsaves⟩ := loopStep_next cfg C plan st st2 hn
    constructor
    · rw [hsaves]
      refine List.pairwise_append.mpr ⟨h.1, by simp, ?_⟩
      intro a ha b hb
      have hb2 : b = { iteration := st.iteration + 1,
                       completion_status := st2.completion_status,
                       codebase := st2.codebase } := by simpa using hb
      rw [hb2]
      exact trackerLE_trans (h.2 a ha) hle
    · intro q hq
      rw [hsaves] at hq
      rcases List.mem_append.mp hq with hq | hq
      · exact trackerLE_trans (h.2 q hq) hle
      · have hq2 : q = { iteration := st.iteration + 1,
                         completion_status := st2.completion_status,
                         codebase := st2.codebase } := by simpa using hq
        rw [hq2]
        exact trackerLE_refl st2.completion_status

/-- The whole run preserves the monotonicity invariant. -/
theorem runLoopAux_inv (cfg : EngineConfig) (C : Collaborators)
    (plan : Plan) :
    ∀ (fuel : Nat) (st : LoopState), loopInv st →
      loopInv (runLoopAux cfg C plan fuel st).state := by
  intro fuel
  induction fuel with
  | zero =>
      intro st h
      simpa [runLoopAux] using h
  | succ n ih =>
      intro st h
      unfold runLoopAux
      cases hstep : loopStep cfg C plan st with
      | broke r st2 =>
          exact loopStep_preserves_inv cfg C plan st h st2 (Or.inl ⟨r, hstep⟩)
      | raised e st2 =>
          exact loopStep_preserves_inv cfg C plan st h st2
            (Or.inr (Or.inl ⟨e, hstep⟩))
      | next st2 =>
          exact ih st2
            (loopStep_preserves_inv cfg C plan st h st2 (Or.inr (Or.inr hstep)))

/-- C5: the completion tracker is monotonic within a run: once a
component reads `true` in a persisted snapshot, every later snapshot of
the run and the final tracker still read `true` (the only mutation the
loop applies is the `false → true` assignment on task completion). -/
theorem tracker_monotonic (cfg : EngineConfig) (C : Collaborators)
    (plan : Plan) (cb0 : List (String × String)) (c : String)
    (i j : Nat) (hij : i ≤ j)
    (hi : i < (runLoop cfg C plan cb0).state.saves.length)
    (hj : j < (runLoop cfg C plan cb0).state.saves.length)
    (htrue : trackerGet
      (((runLoop cfg C plan cb0).state.saves.get ⟨i, hi⟩).completion_status)
      c = true) :
    trackerGet
      (((runLoop cfg C plan cb0).state.saves.get ⟨j, hj⟩).completion_status)
      c = true ∧
    trackerGet (runLoop cfg C plan cb0).state.completion_status c = true := by
  have hinv : loopInv (runLoop cfg C plan cb0).state := by
    apply runLoopAux_inv
    exact ⟨List.Pairwise.nil, by simp⟩
  have hmemj : (runLoop cfg C plan cb0).state.saves.get ⟨j, hj⟩ ∈
      (runLoop cfg C plan cb0).state.saves := List.get_mem _ _ _
  rcases Nat.lt_or_ge i j with hlt | hge
  · have hstep := List.pairwise_iff_get.mp hinv.1 ⟨i, hi⟩ ⟨j, hj⟩ hlt
    exact ⟨hstep c htrue, hinv.2 _ hmemj c (hstep c htrue)⟩
  · have hij2 : i = j := Nat.le_antisymm hij hge
    subst hij2
    exact ⟨htrue, hinv.2 _ hmemj c htrue⟩

/-- Every reachable state persisted exactly one record per completed
iteration: the recorded iteration numbers are `1, 2, ..., iteration`;
and when the run ends in an exception, the final pass saved nothing, so
the recorded numbers stop one short of the final counter. -/
theorem runLoopAux_saves_on_raise (cfg : EngineConfig) (C : Collaborators)
    (plan : Plan) :
    ∀ (fuel : Nat) (st : LoopState) (e : String),
      st.saves.map (fun r => r.iteration) = List.range' 1 st.iteration →
      (runLoopAux cfg C plan fuel st).outcome = .raised e →
      (runLoopAux cfg C plan fuel st).state.saves.map (fun r => r.iteration) =
        List.range' 1 ((runLoopAux cfg C plan fuel st).state.iteration - 1) := by
  intro fuel
  induction fuel with
  | zero =>
      intro st e _ hout
      exact absurd hout (by simp [runLoopAux])
  | succ n ih =>
      intro st e hsh hout
      unfold runLoopAux at hout ⊢
      cases hstep : loopStep cfg C plan st with
      | broke r st2 =>
          rw [hstep] at hout
          exact absurd hout (by simp)
      | raised e2 st2 =>
          obtain ⟨hit, _, hsaves⟩ := loopStep_raised cfg C plan st e2 st2 hstep
          simpa [hsaves, hit] using hsh
      | next st2 =>
          rw [hstep] at hout
          obtain ⟨hit, _, hsaves⟩ := loopStep_next cfg C plan st st2 hstep
          have hsh2 : st2.saves.map (fun r => r.iteration) =
              List.range' 1 st2.iteration := by
            rw [hsaves, hit, List.map_append, hsh]
            have hcat : List.range' 1 (st.iteration + 1) =
                List.range' 1 st.iteration ++ [1 + 1 * st.iteration] :=
              List.range'_concat 1 st.iteration
            simp [hcat, Nat.add_comm]
          exact ih st2 e hsh2 hout

/-- C7: an unhandled collaborator exception (from execute, test or
repair) aborts the run: the caller of `build_project` receives a
structured error result carrying the message and no project payload, and
the persisted progress records are exactly those of the iterations that
completed before the aborting pass. -/
theorem loop_abort_on_exception (cfg : EngineConfig) (C : Collaborators)
    (plan : Plan) (cb0 : List (String × String)) (e : String)
    (h : (runLoop cfg C plan cb0).outcome = .raised e) :
    (build_project_loop cfg C plan cb0).status = "error" ∧
    (build_project_loop cfg C plan cb0).error = some e ∧
    (build_project_loop cfg C plan cb0).project = none ∧
    (runLoop cfg C plan cb0).state.saves.map (fun r => r.iteration) =
      List.range' 1 ((runLoop cfg C plan cb0).state.iteration - 1) := by
  have h4 : (runLoop cfg C plan cb0).state.saves.map (fun r => r.iteration) =
      List.range' 1 ((runLoop cfg C plan cb0).state.iteration - 1) := by
    apply runLoopAux_saves_on_raise cfg C plan cfg.max_iterations _ e _ h
    simp
  have hb : build_project_loop cfg C plan cb0 =
      { status := "error", error := some e, project := none } := by
    unfold build_project_loop
    cases hrun : runLoop cfg C plan cb0 with
    | mk st out =>
        rw [hrun] at h
        cases out with
        | finished r => exact absurd h (by simp)
        | raised e2 =>
            have : e2 = e := by simpa using h
            rw [this]
  exact ⟨by rw [hb], by rw [hb], by rw [hb], h4⟩

/-- Scenario configuration: the engine's default `max_iterations = 1000`
with auto-test and auto-fix enabled. -/
def cfgA : EngineConfig :=
  { max_iterations := 1000, auto_test := true, auto_fix_errors := true }

/-- One medium-priority task for a component, with no prerequisites. -/
def taskOf (cid : String) : Task :=
  { component_id := cid, description := cid, priority := "medium",
    estimated_complexity := 5, prerequisites := [] }

/-- Scenario A plan: 3 components, no cross-dependencies, one task
each. -/
def planA : Plan :=
  { components := ["c1", "c2", "c3"],
    tasks := [taskOf "c1", taskOf "c2", taskOf "c3"] }

/-- Scenario A collaborators: every dispatched task returns
`completed = true` on first execution and every test passes. -/
def collabA : Collaborators :=
  { execute := fun _ t _ =>
      .ok { files := [(t.component_id ++ ".py", "code")], completed := true },
    run_tests := fun _ _ => .ok { passed := true, output := "" },
    debug_and_fix := fun _ _ _ => .ok { fixed := false, files := [] } }

/-- C6 counterexample: in the 3-component all-succeed scenario the loop
exits in the all-complete state, but its iteration counter reads 4, not
3: the counter increments at the top of each pass before the
all-complete check, so detecting completion costs a fourth pass. -/
theorem scenario_three_counterexample :
    (runLoop cfgA collabA planA []).outcome =
      RunEnd.finished LoopExit.allComplete ∧
    (runLoop cfgA collabA planA []).state.iteration = 4 ∧
    ¬ (runLoop cfgA collabA planA []).state.iteration = 3 := by
  decide

/-- C6 amended: the scenario dispatches exactly 3 tasks in 3 working
iterations — the progress trace records iterations 1, 2, 3 and every
component completes — and the loop then exits in the all-complete state
with its iteration counter at 4, one past the last working iteration. -/
theorem scenario_three_amended :
    (runLoop cfgA collabA planA []).outcome =
      RunEnd.finished LoopExit.allComplete ∧
    (runLoop cfgA collabA planA []).state.saves.map (fun r => r.iteration) =
      [1, 2, 3] ∧
    (runLoop cfgA collabA planA []).state.completion_status.all
      (fun p => p.2) = true ∧
    (runLoop cfgA collabA planA []).state.iteration = 4 := by
  decide

/-- Small run used as a concrete monotonicity witness: one component
whose task completes at iteration 1. -/
def cfgW : EngineConfig :=
  { max_iterations := 5, auto_test := false, auto_fix_errors := false }

def planW1 : Plan := { components := ["c1"], tasks := [taskOf "c1"] }

def collabW : Collaborators :=
  { execute := fun _ _ _ => .ok { files := [], completed := true },
    run_tests := fun _ _ => .ok { passed := true, output := "" },
    debug_and_fix := fun _ _ _ => .ok { fixed := false, files := [] } }

theorem tracker_monotonic_witness :
    trackerGet
      (((runLoop cfgW collabW planW1 []).state.saves.get
          ⟨0, by decide⟩).completion_status) "c1" = true ∧
    trackerGet (runLoop cfgW collabW planW1 []).state.completion_status
      "c1" = true :=
  tracker_monotonic cfgW collabW planW1 [] "c1" 0 0 (Nat.le_refl 0)
    (by decide) (by decide) (by decide)

/-- Collaborators whose execution dispatch raises at iteration 2. -/
def collabRaise : Collaborators :=
  { execute := fun it _ _ =>
      if it == 2 then .error "boom"
      else .ok { files := [], completed := true },
    run_tests := fun _ _ => .ok { passed := true, output := "" },
    debug_and_fix := fun _ _ _ => .ok { fixed := false, files := [] } }

theorem loop_abort_on_exception_witness :
    (build_project_loop cfgA collabRaise planA []).status = "error" ∧
    (build_project_loop cfgA collabRaise planA []).error = some "boom" ∧
    (build_project_loop cfgA collabRaise planA []).project = none ∧
    (runLoop cfgA collabRaise planA []).state.saves.map
      (fun r => r.iteration) =
      List.range' 1 ((runLoop cfgA collabRaise planA []).state.iteration - 1) :=
  loop_abort_on_exception cfgA collabRaise planA [] "boom" (by decide)

/-! The repair policy of `AutoDebugger` (`auto_debugger.py`): error
extraction from test output and the confidence-thresholded acceptance of
LLM-proposed fixes. -/

/-- Whether the character list `hay` starts with `needle`. -/
def listStartsWith : List Char → List Char → Bool
  | _, [] => true
  | [], _ :: _ => false
  | a :: as, b :: bs => a == b && listStartsWith as bs

/-- Whether `needle` occurs contiguously inside `hay`. -/
def listContainsSub : List Char → List Char → Bool
  | [], needle => needle.isEmpty
  | a :: rest, needle =>
      listStartsWith (a :: rest) needle || listContainsSub rest needle

/-- Python's `sub in s` substring containment. -/
def strContains (s sub : String) : Bool :=
  listContainsSub s.data sub.data

/-- Python's `s.split("\n")`: split at every newline, keeping empty
pieces (the empty string yields one empty piece). -/
def splitNl : List Char → List (List Char)
  | [] => [[]]
  | c :: rest =>
      match splitNl rest with
      | [] => []
      | grp :: grps =>
          if c = '\n' then [] :: grp :: grps else (c :: grp) :: grps

/-- One extracted error dictionary of `_extract_errors`. -/
structure ErrorInfo where
  message : String
  type : String
deriving Repr, DecidableEq

/-- The per-line marker test of `_extract_errors`:
`any(marker in line for marker in ["FAILED", "ERROR", "Error:", "Traceback"])`. -/
def isErrorLine (line : String) : Bool :=
  ["FAILED", "ERROR", "Error:", "Traceback"].any
    (fun m => strContains line m)

/-- Closing a collected error block: join its lines with newlines and
tag it `test_failure`. -/
def finishError (current : List String) : ErrorInfo :=
  { message := String.intercalate "\n" current, type := "test_failure" }

/-- One step of the line scan of `_extract_errors`: a marker line closes
the current block (when non-empty) and starts a new one; a non-marker
line extends the current block when one is open and is skipped
otherwise. -/
def scanStep (acc : List ErrorInfo × List String) (line : String) :
    List ErrorInfo × List String :=
  if isErrorLine line then
    (if acc.2.isEmpty then acc.1 else acc.1 ++ [finishError acc.2], [line])
  else if acc.2.isEmpty then acc
  else (acc.1, acc.2 ++ [line])

/-- Embeds `AutoDebugger._extract_errors`: when the output mentions
`FAILED`, `ERROR` or `Error`, scan its lines into error blocks (closing
the trailing block), then keep at most the first 5. -/
def extract_errors (tr : TestResult) : List ErrorInfo :=
  (if strContains tr.output "FAILED" || strContains tr.output "ERROR" ||
      strContains tr.output "Error" then
    let scan := ((splitNl tr.output.data).map (fun g => String.mk g)).foldl
      scanStep ([], [])
    if scan.2.isEmpty then scan.1 else scan.1 ++ [finishError scan.2]
  else []).take 5

/-- A repair fix as parsed from the LLM's JSON response: the files to
overwrite and the optional confidence score (`fix.get("confidence", 0)`
reads 0 when the field is absent). -/
structure Fix where
  files : List (String × String)
  confidence : Option ℚ
deriving Repr, DecidableEq

/-- The acceptance threshold `0.6` of `_analyze_and_fix_error`. -/
def confidenceThreshold : ℚ := mkRat 6 10

/-- Embeds `AutoDebugger._analyze_and_fix_error` after the LLM call: an
exception from the call or the JSON parse is caught and yields no fix;
a parsed fix is returned iff its confidence (0 when absent) is strictly
greater than the threshold. -/
def analyze_and_fix_error (response : Except String Fix) : Option Fix :=
  match response with
  | .error _ => none
  | .ok fix =>
      if fix.confidence.getD 0 > confidenceThreshold then some fix else none

/-- The fixes accepted in one debug attempt: each extracted error is
analysed through the repair oracle and the accepted fixes are kept in
order. -/
def acceptedFixes (tr : TestResult)
    (oracle : ErrorInfo → Except String Fix) : List Fix :=
  (extract_errors tr).filterMap (fun e => analyze_and_fix_error (oracle e))

/-- Embeds `AutoDebugger.debug_and_fix`: no clear errors or no accepted
fixes reports `fixed = false` with no files; otherwise every accepted
fix's files are merged, later fixes overwriting earlier ones on the same
path. -/
def debug_and_fix (tr : TestResult)
    (oracle : ErrorInfo → Except String Fix) : DebugOutcome :=
  if (extract_errors tr).isEmpty then { fixed := false, files := [] }
  else if (acceptedFixes tr oracle).isEmpty then { fixed := false, files := [] }
  else
    { fixed := true,
      files := (acceptedFixes tr oracle).foldl
        (fun acc f => dictUpdate acc f.files) [] }

/-- C3: at most 5 candidate errors are considered per debug attempt, and
a repair fix is accepted and merged iff its confidence is strictly
greater than 0.6: every accepted fix exceeds the threshold, every
oracle-returned fix exceeding the threshold is accepted, a fix at or
below the threshold (in particular one with no confidence field, read as
0) is never accepted, a failing analysis yields no fix, and the debug
result merges exactly the accepted fixes' files, reporting `fixed`
exactly when some fix was accepted. -/
theorem debug_fix_acceptance (tr : TestResult)
    (oracle : ErrorInfo → Except String Fix) :
    (extract_errors tr).length ≤ 5 ∧
    (∀ fix ∈ acceptedFixes tr oracle,
        fix.confidence.getD 0 > confidenceThreshold) ∧
    (∀ e ∈ extract_errors tr, ∀ fix, oracle e = .ok fix →
        fix.confidence.getD 0 > confidenceThreshold →
        fix ∈ acceptedFixes tr oracle) ∧
    (∀ fix : Fix, fix.confidence.getD 0 ≤ confidenceThreshold →
        analyze_and_fix_error (.ok fix) = none) ∧
    (∀ msg, analyze_and_fix_error (.error msg) = none) ∧
    ((debug_and_fix tr oracle).fixed = true ↔ acceptedFixes tr oracle ≠ []) ∧
    ((debug_and_fix tr oracle).fixed = true →
      (debug_and_fix tr oracle).files =
        (acceptedFixes tr oracle).foldl (fun acc f => dictUpdate acc f.files)
          []) := by
  refine ⟨?_, ?_, ?_, ?_, ?_, ?_, ?_⟩
  · unfold extract_errors
    simp [List.length_take]
  · intro fix hfix
    obtain ⟨e, _, hsome⟩ := List.mem_filterMap.mp hfix
    cases horacle : oracle e with
    | error msg =>
        rw [horacle] at hsome
        exact absurd hsome (by simp [analyze_and_fix_error])
    | ok f =>
        rw [horacle] at hsome
        simp only [analyze_and_fix_error] at hsome
        split at hsome
        · rename_i hc
          cases hsome
          exact hc
        · exact absurd hsome (by simp)
  · intro e he fix horacle hc
    refine List.mem_filterMap.mpr ⟨e, he, ?_⟩
    rw [horacle]
    simp only [analyze_and_fix_error]
    rw [if_pos hc]
  · intro fix hc
    simp only [analyze_and_fix_error]
    rw [if_neg (not_lt.mpr hc)]
  · intro msg
    rfl
  · unfold debug_and_fix
    split
    · rename_i hempty
      have : acceptedFixes tr oracle = [] := by
        unfold acceptedFixes
        rw [List.isEmpty_iff.mp hempty]
        rfl
      simp [this]
    · split
      · rename_i haccept
        simp [List.isEmpty_iff.mp haccept]
      · rename_i haccept
        exact ⟨fun _ h => haccept (List.isEmpty_iff.mpr h), fun _ => rfl⟩
  · intro hfixed
    unfold debug_and_fix at hfixed ⊢
    split at hfixed
    · exact absurd hfixed (by simp)
    · split at hfixed
      · exact absurd hfixed (by simp)
      · rename_i h1 h2
        rw [if_neg h1, if_neg h2]

/-- Concrete debug attempt: seven error lines (so extraction truncates
to 5 candidates) and an oracle accepting only the first error's fix. -/
def trW : TestResult :=
  { passed := false,
    output := "ERROR a\nERROR b\nERROR c\nERROR d\nERROR e\nERROR f\nERROR g" }

def fixHigh : Fix :=
  { files := [("m.py", "fixed")], confidence := some (mkRat 9 10) }

def fixLow : Fix :=
  { files := [("n.py", "bad")], confidence := some (mkRat 4 10) }

def oracleW (e : ErrorInfo) : Except String Fix :=
  if e.message = "ERROR a" then .ok fixHigh else .ok fixLow

theorem debug_fix_acceptance_witness :
    (extract_errors trW).length ≤ 5 ∧
    fixHigh ∈ acceptedFixes trW oracleW ∧
    analyze_and_fix_error (Except.ok fixLow) = none ∧
    (debug_and_fix trW oracleW).fixed = true :=
  ⟨(debug_fix_acceptance trW oracleW).1,
   (debug_fix_acceptance trW oracleW).2.2.1
      { message := "ERROR a", type := "test_failure" } (by decide)
      fixHigh (by rfl) (by decide),
   (debug_fix_acceptance trW oracleW).2.2.2.1 fixLow (by decide),
   ((debug_fix_acceptance trW oracleW).2.2.2.2.2.1).mpr (by decide)⟩

/-! The Progress Store of `ProjectManager` (`project_manager.py`):
`save_progress` (its in-place record mutation and its file-system
effects) and `get_project_status`. -/

/-- A JSON value as stored in the progress dictionary: the record holds
an integer iteration, string timestamps, the completion map and the
codebase map. -/
inductive PVal where
  | pnum (n : Int)
  | pstr (s : String)
  | pbool (d : List (String × Bool))
  | pfiles (d : List (String × String))
deriving Repr, DecidableEq

/-- Reading a dict after an assignment, at the `lookup` level: the
assigned key reads the new value, every other key is untouched. -/
theorem lookup_dictSet {β : Type} (d : List (String × β)) (k c : String)
    (v : β) :
    (dictSet d k v).lookup c = if c = k then some v else d.lookup c := by
  induction d with
  | nil =>
      simp only [dictSet, List.lookup]
      by_cases hck : c = k
      · simp [hck]
      · simp [hck, show (c == k) = false from by simpa using hck]
  | cons p rest ih =>
      obtain ⟨k2, v2⟩ := p
      by_cases hk : k2 = k
      · subst hk
        simp only [dictSet, beq_self_eq_true, if_true, List.lookup]
        by_cases hck : c = k2
        · simp [hck]
        · simp [hck, show (c == k2) = false from by simpa using hck]
      · have hkb : (k2 == k) = false := by simpa using hk
        simp only [dictSet, hkb, Bool.false_eq_true, if_false, List.lookup]
        by_cases hck : c = k2
        · subst hck
          simp [hk]
        · have hcb : (c == k2) = false := by simpa using hck
          simpa [hcb] using ih

/-- The in-place mutation `progress["last_updated"] = now` that
`save_progress` applies to the caller's dictionary before
serialising. -/
def save_progress_update (progress : List (String × PVal)) (now : String) :
    List (String × PVal) :=
  dictSet progress "last_updated" (PVal.pstr now)

/-- C10: `save_progress` mutates its `progress` argument in place,
setting (or overwriting) the `last_updated` key to the current timestamp
before serialising, and leaves the binding of every other key of the
caller's dictionary unchanged. -/
theorem save_progress_frame (progress : List (String × PVal))
    (now : String) :
    (save_progress_update progress now).lookup "last_updated" =
      some (PVal.pstr now) ∧
    (∀ k, k ≠ "last_updated" →
      (save_progress_update progress now).lookup k = progress.lookup k) := by
  constructor
  · rw [save_progress_update, lookup_dictSet]
    simp
  · intro k hk
    rw [save_progress_update, lookup_dictSet]
    simp [hk]

theorem save_progress_frame_witness :
    (save_progress_update [("iteration", PVal.pnum 2)] "t1").lookup
      "last_updated" = some (PVal.pstr "t1") ∧
    (save_progress_update [("iteration", PVal.pnum 2)] "t1").lookup
      "iteration" = some (PVal.pnum 2) :=
  ⟨(save_progress_frame [("iteration", PVal.pnum 2)] "t1").1,
   by
    rw [(save_progress_frame [("iteration", PVal.pnum 2)] "t1").2
      "iteration" (by decide)]
    decide⟩

/-- The file-system effects a `save_progress` call can issue. -/
inductive FSOp where
  | mkdirParents (path : List String)
  | writeText (path : List String) (content : String)
  | rename (src dst : List String)
deriving Repr, DecidableEq

/-- The metadata directory `project_path / ".devonika"`. -/
def progressDir (project_path : List String) : List String :=
  project_path ++ [".devonika"]

/-- The durable record `project_path / ".devonika" / "progress.json"`. -/
def progressFile (project_path : List String) : List String :=
  project_path ++ [".devonika", "progress.json"]

/-- The file-system effect trace of `save_progress`: ensure the metadata
directory exists, then write the serialised record text (the rendering
of the timestamped `save_progress_update` result, whose exact text is
irrelevant to the write discipline) directly to `progress.json` with a
single `write_text`. -/
def save_progress_ops (project_path : List String) (content : String) :
    List FSOp :=
  [ FSOp.mkdirParents (progressDir project_path),
    FSOp.writeText (progressFile project_path) content ]

/-- A file system, as the mapping from paths to file contents. -/
abbrev FS := List (List String × String)

def fsRead (fs : FS) (p : List String) : Option String := fs.lookup p

def fsWrite : FS → List String → String → FS
  | [], p, c => [(p, c)]
  | (q, d) :: rest, p, c =>
      if q == p then (q, c) :: rest else (q, d) :: fsWrite rest p c

def fsRemove : FS → List String → FS
  | [], _ => []
  | (q, d) :: rest, p =>
      if q == p then rest else (q, d) :: fsRemove rest p

/-- Effect of one operation on the file system (directories are not
tracked; a rename moves a file's content atomically). -/
def applyOp (fs : FS) (op : FSOp) : FS :=
  match op with
  | .mkdirParents _ => fs
  | .writeText p c => fsWrite fs p c
  | .rename src dst =>
      match fsRead fs src with
      | none => fs
      | some c => fsWrite (fsRemove fs src) dst c

theorem fsRead_fsWrite (fs : FS) (p : List String) (c : String) :
    fsRead (fsWrite fs p c) p = some c := by
  induction fs with
  | nil => simp [fsWrite, fsRead, List.lookup]
  | cons q rest ih =>
      obtain ⟨q1, d⟩ := q
      by_cases hq : q1 = p
      · simp [fsWrite, fsRead, List.lookup, hq]
      · have hqb1 : (q1 == p) = false := by simpa using hq
        have hqb2 : (p == q1) = false := by
          simpa using fun h : p = q1 => hq h.symm
        simpa [fsWrite, fsRead, List.lookup, hqb1, hqb2] using ih

/-- Every non-empty piece of a string's text up to a length, as left
slices; used to describe writes cut short by process termination. -/
def strSlices (s : String) : List String :=
  (List.range (s.data.length + 1)).map (fun i => String.mk (s.data.take i))

/-- The extra states a `write_text` interrupted by process termination
can leave behind: the target holding any left slice of the new
content. -/
def midStates (fs : FS) (op : FSOp) : List FS :=
  match op with
  | .writeText p c => (strSlices c).map (fun piece => fsWrite fs p piece)
  | _ => []

/-- All file-system states observable while a trace runs if the process
may terminate at any point: before each operation, inside a direct
write, and after each operation. -/
def crashObservable (fs : FS) : List FSOp → List FS
  | [] => [fs]
  | op :: rest => fs :: (midStates fs op ++ crashObservable (applyOp fs op) rest)

/-- Whether an operation is a rename. -/
def isRenameOp : FSOp → Bool
  | .rename _ _ => true
  | _ => false

/-- The discipline the claim asserts: the durable record's path is never
the direct target of a `write_text`; its content may only appear whole,
via a rename of a fully written temporary. -/
def atomicWriteDiscipline (ops : List FSOp) (final : List String) : Prop :=
  ∀ op ∈ ops, ∀ p c, op = FSOp.writeText p c → p ≠ final

/-- C2 counterexample: `save_progress` writes `progress.json` directly:
its trace contains a `write_text` to the final path and no rename at
all, and a process terminated mid-write is observable as a half-written
record: with serialised content "AB", a crash-observable state holds the
strict prefix "A" at the progress path. -/
theorem save_progress_not_atomic :
    ¬ atomicWriteDiscipline (save_progress_ops ["p"] "AB")
        (progressFile ["p"]) ∧
    (save_progress_ops ["p"] "AB").all (fun op => !(isRenameOp op)) = true ∧
    (∃ fs ∈ crashObservable [] (save_progress_ops ["p"] "AB"),
      fsRead fs (progressFile ["p"]) = some "A") := by
  refine ⟨?_, by decide, ?_⟩
  · intro h
    exact h (FSOp.writeText (progressFile ["p"]) "AB") (by decide)
      (progressFile ["p"]) "AB" rfl rfl
  · exact ⟨fsWrite [] (progressFile ["p"]) "A", by decide, by decide⟩

/-- C2 amended: `save_progress` persists the record with a plain direct
overwrite — a `mkdir -p` of the metadata directory followed by a single
`write_text` of the serialised record to `progress.json`, with no
temporary file and no rename — so a completed call leaves the full
record at the progress path, but the write is not atomic with respect to
process termination. -/
theorem save_progress_direct_write (pp : List String) (content : String) :
    save_progress_ops pp content =
      [ FSOp.mkdirParents (progressDir pp),
        FSOp.writeText (progressFile pp) content ] ∧
    (∀ fs : FS, fsRead ((save_progress_ops pp content).foldl applyOp fs)
        (progressFile pp) = some content) := by
  refine ⟨rfl, ?_⟩
  intro fs
  simpa [save_progress_ops, applyOp] using
    fsRead_fsWrite fs (progressFile pp) content

/-- Reads `progress.get("completion_status", {})`.  Records written by
the loop always store a boolean dict under this key, so only the
present-dict and absent cases arise. -/
def progressCompletion (p : List (String × PVal)) : List (String × Bool) :=
  match p.lookup "completion_status" with
  | some (PVal.pbool d) => d
  | _ => []

/-- Reads `progress.get("iteration", 0)`. -/
def progressIteration (p : List (String × PVal)) : Int :=
  match p.lookup "iteration" with
  | some (PVal.pnum n) => n
  | _ => 0

/-- Reads `progress.get("last_updated", "")`. -/
def progressLastUpdated (p : List (String × PVal)) : String :=
  match p.lookup "last_updated" with
  | some (PVal.pstr s) => s
  | _ => ""

/-- The status dictionary returned by `get_project_status`; the
`not_started` answer carries only the status key, hence the optional
fields. -/
structure StatusReport where
  status : String
  completion_percentage : Option ℚ
  iteration : Option Int
  last_updated : Option String
deriving Repr, DecidableEq

/-- Embeds `ProjectManager.get_project_status`: a missing record — or a
loaded record that is falsy under Python truthiness, i.e. the empty
dict — reports `not_started`; otherwise the completion map is summarised
into a status, a percentage guarded against the zero division, the
iteration and the timestamp. -/
def get_project_status (progress : Option (List (String × PVal))) :
    StatusReport :=
  match progress with
  | none =>
      { status := "not_started", completion_percentage := none,
        iteration := none, last_updated := none }
  | some p =>
      if p.isEmpty then
        { status := "not_started", completion_percentage := none,
          iteration := none, last_updated := none }
      else
        let completion := progressCompletion p
        let total := completion.length
        let completed := (completion.filter (fun q => q.2)).length
        { status := if completed < total then "in_progress" else "completed",
          completion_percentage :=
            some (if 0 < total then
              (completed : ℚ) / (total : ℚ) * 100 else 0),
          iteration := some (progressIteration p),
          last_updated := some (progressLastUpdated p) }

/-- C9 counterexample: a progress file holding the JSON record `{}`
loads as a record whose completion map is empty, yet
`get_project_status` reports `not_started`, not `completed`: the
`if not progress` truthiness check conflates the empty dict with a
missing record. -/
theorem get_project_status_empty_record_counterexample :
    progressCompletion [] = [] ∧
    (get_project_status (some [])).status = "not_started" ∧
    ¬ (get_project_status (some [])).status = "completed" := by
  refine ⟨rfl, rfl, ?_⟩
  intro h
  exact absurd h (by decide)

/-- C9 (amended): `get_project_status` reports `not_started` when no
record exists and also when the loaded record is the empty dict (the
truthiness check); for a non-empty record whose completion map is empty
it reports `completed` with percentage 0 instead of raising a
division-by-zero error. -/
theorem get_project_status_empty (progress : List (String × PVal)) :
    (get_project_status none).status = "not_started" ∧
    (get_project_status (some [])).status = "not_started" ∧
    (progress ≠ [] → progressCompletion progress = [] →
      (get_project_status (some progress)).status = "completed" ∧
      (get_project_status (some progress)).completion_percentage = some 0) := by
  refine ⟨rfl, rfl, ?_⟩
  intro hne hcomp
  have hempty : progress.isEmpty = false := by
    cases progress with
    | nil => exact absurd rfl hne
    | cons a l => simp
  simp only [get_project_status]
  rw [hempty]
  simp [hcomp]

theorem get_project_status_empty_witness :
    (get_project_status none).status = "not_started" ∧
    (get_project_status (some [])).status = "not_started" ∧
    ((get_project_status
        (some [("iteration", PVal.pnum 3)])).status = "completed" ∧
     (get_project_status
        (some [("iteration", PVal.pnum 3)])).completion_percentage =
       some 0) :=
  ⟨(get_project_status_empty [("iteration", PVal.pnum 3)]).1,
   (get_project_status_empty [("iteration", PVal.pnum 3)]).2.1,
   (get_project_status_empty [("iteration", PVal.pnum 3)]).2.2
     (by decide) (by decide)⟩

end Devonika
